import Mathlib

/-!
Verification of the advisor scraping-and-ingestion pipeline of the
Wealth-Advisor-Hub repository.

The development shallowly embeds the pipeline code (the later of the two
versions concatenated in the scraper module, the one the specification was
written from): location normalisation, slug generation, priority scoring,
stable priority sorting, the markdown advisor parsers, the AI bio rewriter
with its retry loop, and the per-source ingestion orchestrator.

Modelling conventions:
* JavaScript strings are Lean `String`s; the ASCII case maps model
  `toUpperCase`/`toLowerCase` (the inputs the pipeline manipulates are
  ASCII identifiers, keywords and state codes).
* JavaScript numbers that are only ever non-negative integers are `Nat`.
* The JavaScript regular-expression engine is a runtime library external to
  the repository; a markdown document is therefore represented by the
  streams of capture groups each source pattern yields on it, and every
  theorem about the parsers quantifies over all such streams.
* The database is represented by its observable predicates (slug / website
  existence); inserting threads an updated state, and the unique-slug
  constraint declared in the schema makes an insert on an existing slug
  fail with the driver's duplicate-key message.
* Asynchronous functions are pure state-passing functions; the effects a
  run performs (duplicate checks, rewriter invocations, fallback use,
  inserts) are recorded in an explicit trace.
-/

namespace AdvisorHub

/-- ASCII lower-to-upper case table, modelling the character-level behaviour
of JavaScript case conversion on the ASCII range. -/
def upperPairs : List (Char × Char) :=
  [('a', 'A'), ('b', 'B'), ('c', 'C'), ('d', 'D'), ('e', 'E'), ('f', 'F'),
   ('g', 'G'), ('h', 'H'), ('i', 'I'), ('j', 'J'), ('k', 'K'), ('l', 'L'),
   ('m', 'M'), ('n', 'N'), ('o', 'O'), ('p', 'P'), ('q', 'Q'), ('r', 'R'),
   ('s', 'S'), ('t', 'T'), ('u', 'U'), ('v', 'V'), ('w', 'W'), ('x', 'X'),
   ('y', 'Y'), ('z', 'Z')]

/-- ASCII upper-to-lower case table. -/
def lowerPairs : List (Char × Char) := upperPairs.map (fun p => (p.2, p.1))

/-- Character-level model of JavaScript `toUpperCase`. -/
def jsUpperChar (c : Char) : Char := (List.lookup c upperPairs).getD c

/-- Character-level model of JavaScript `toLowerCase`. -/
def jsLowerChar (c : Char) : Char := (List.lookup c lowerPairs).getD c

/-- The whitespace characters `trim` removes and `\s` matches in the inputs
this pipeline sees. -/
def isWs (c : Char) : Bool := c == ' ' || c == '\t' || c == '\n' || c == '\r'

/-- Drop leading and trailing whitespace from a character list. -/
def trimL (l : List Char) : List Char :=
  ((l.dropWhile isWs).reverse.dropWhile isWs).reverse

/-- Model of `String.prototype.trim`. -/
def jsTrim (s : String) : String := String.mk (trimL s.toList)

/-- Model of `String.prototype.toUpperCase`. -/
def jsToUpper (s : String) : String := String.mk (s.toList.map jsUpperChar)

/-- Model of `String.prototype.toLowerCase`. -/
def jsToLower (s : String) : String := String.mk (s.toList.map jsLowerChar)

/-- Contiguous-sublist test on character lists (the search of
`String.prototype.includes`). -/
def isSubList (p : List Char) : List Char → Bool
  | [] => p.isEmpty
  | c :: rest => p.isPrefixOf (c :: rest) || isSubList p rest

/-- Model of `String.prototype.includes`. -/
def strIncludes (s pat : String) : Bool := isSubList pat.toList s.toList

/-- The STATE_NAMES table of the scraper: two-letter code to full name,
in source order. -/
def STATE_NAMES : List (String × String) :=
  [("AL", "Alabama"), ("AK", "Alaska"), ("AZ", "Arizona"), ("AR", "Arkansas"),
   ("CA", "California"), ("CO", "Colorado"), ("CT", "Connecticut"),
   ("DE", "Delaware"), ("FL", "Florida"), ("GA", "Georgia"), ("HI", "Hawaii"),
   ("ID", "Idaho"), ("IL", "Illinois"), ("IN", "Indiana"), ("IA", "Iowa"),
   ("KS", "Kansas"), ("KY", "Kentucky"), ("LA", "Louisiana"), ("ME", "Maine"),
   ("MD", "Maryland"), ("MA", "Massachusetts"), ("MI", "Michigan"),
   ("MN", "Minnesota"), ("MS", "Mississippi"), ("MO", "Missouri"),
   ("MT", "Montana"), ("NE", "Nebraska"), ("NV", "Nevada"),
   ("NH", "New Hampshire"), ("NJ", "New Jersey"), ("NM", "New Mexico"),
   ("NY", "New York"), ("NC", "North Carolina"), ("ND", "North Dakota"),
   ("OH", "Ohio"), ("OK", "Oklahoma"), ("OR", "Oregon"),
   ("PA", "Pennsylvania"), ("RI", "Rhode Island"), ("SC", "South Carolina"),
   ("SD", "South Dakota"), ("TN", "Tennessee"), ("TX", "Texas"),
   ("UT", "Utah"), ("VT", "Vermont"), ("VA", "Virginia"),
   ("WA", "Washington"), ("WV", "West Virginia"), ("WI", "Wisconsin"),
   ("WY", "Wyoming"), ("DC", "District of Columbia")]

/-- The STATE_ABBREVS reverse table, built by the scraper from STATE_NAMES
with `Object.fromEntries` over upper-cased full names. -/
def STATE_ABBREVS : List (String × String) :=
  STATE_NAMES.map (fun p => (jsToUpper p.2, p.1))

/-- The CITY_NORMALIZATIONS nickname table of the scraper, in source order. -/
def CITY_NORMALIZATIONS : List (String × String) :=
  [("nyc", "New York"), ("ny", "New York"), ("la", "Los Angeles"),
   ("sf", "San Francisco"), ("dc", "Washington"), ("philly", "Philadelphia"),
   ("vegas", "Las Vegas"), ("nola", "New Orleans"), ("chi", "Chicago"),
   ("atl", "Atlanta"), ("dallas-fort worth", "Dallas"), ("dfw", "Dallas")]

/-- Split a character list at every occurrence of a separator character,
keeping empty segments, as JavaScript split on a one-character string does. -/
def splitOnChar (sep : Char) : List Char → List (List Char)
  | [] => [[]]
  | c :: rest =>
    if c = sep then [] :: splitOnChar sep rest
    else
      match splitOnChar sep rest with
      | [] => [[c]]
      | w :: ws => (c :: w) :: ws

/-- Interleave a separator between segments, as JavaScript join does. -/
def intercalateL (sep : List Char) : List (List Char) → List Char
  | [] => []
  | [w] => w
  | w :: x :: ws => w ++ sep ++ intercalateL sep (x :: ws)

/-- One word of the proper-casing branch of normalizeCity:
first character upper-cased, the rest lower-cased. -/
def capitalizeWordL : List Char → List Char
  | [] => []
  | c :: rest => jsUpperChar c :: rest.map jsLowerChar

/-- Replace every maximal whitespace run by one space: the final
whitespace-collapsing replacement of normalizeCity. -/
def collapseWsGo : Bool → List Char → List Char
  | _, [] => []
  | inRun, c :: rest =>
    if isWs c then
      if inRun then collapseWsGo true rest else ' ' :: collapseWsGo true rest
    else c :: collapseWsGo false rest

/-- normalizeCity from the scraper: nickname-table lookup of the lower-cased,
trimmed city; otherwise per-word proper casing with whitespace collapsing. -/
def normalizeCity (city : String) : String :=
  let lowerCity := jsTrim (jsToLower city)
  match List.lookup lowerCity CITY_NORMALIZATIONS with
  | some v => v
  | none =>
    let words := (splitOnChar ' ' (jsTrim city).toList).map capitalizeWordL
    String.mk (collapseWsGo false (intercalateL [' '] words))

/-- normalizeState from the scraper: if the upper-cased trimmed input is a
known two-letter code return it, else reverse-look-up the full-name table,
else the first two characters. -/
def normalizeState (state : String) : String :=
  let upperState := jsTrim (jsToUpper state)
  match List.lookup upperState STATE_NAMES with
  | some _ => upperState
  | none =>
    match List.lookup upperState STATE_ABBREVS with
    | some abbr => abbr
    | none => String.mk (upperState.toList.take 2)

/-- Lower-case-letter-or-digit test: the character class kept by the slug
replacement. -/
def isAlnumLower (c : Char) : Bool :=
  ('a' ≤ c && c ≤ 'z') || ('0' ≤ c && c ≤ '9')

/-- Replace every maximal run of characters outside lower-case-alnum by a
single hyphen (the global slug replacement); the flag records whether the
current position is inside such a run. -/
def collapseGo : Bool → List Char → List Char
  | _, [] => []
  | inRun, c :: rest =>
    if isAlnumLower c then c :: collapseGo false rest
    else if inRun then collapseGo true rest
    else '-' :: collapseGo true rest

/-- Remove one leading hyphen (the leading alternative of the trim
replacement in the slug generator). -/
def trimLead (l : List Char) : List Char :=
  if l.head? = some '-' then l.tail else l

/-- Remove one trailing hyphen (the trailing alternative of the trim
replacement in the slug generator). -/
def trimTrail : List Char → List Char
  | [] => []
  | [c] => if c = '-' then [] else [c]
  | c :: d :: rest => c :: trimTrail (d :: rest)

/-- The slug before truncation: parts joined by hyphens, lower-cased,
non-alnum runs collapsed to hyphens, one leading and one trailing hyphen
removed. An empty specialty is not pushed (the truthiness test of the
source). -/
def slugCore (name city : String) (primarySpecialty : Option String) : List Char :=
  let parts := [name, city] ++ (match primarySpecialty with
    | some s => if s = "" then [] else [s]
    | none => [])
  trimTrail (trimLead (collapseGo false
    ((intercalateL ['-'] (parts.map String.toList)).map jsLowerChar)))

/-- generateAdvisorSlug from the shared schema: the slug core truncated to
100 characters. -/
def generateAdvisorSlug (name city : String) (primarySpecialty : Option String) : String :=
  String.mk ((slugCore name city primarySpecialty).take 100)

/-- The ScrapedAdvisor record of the scraper module. -/
structure ScrapedAdvisor where
  name : String
  firmName : Option String := none
  designation : String
  city : String
  state : String
  zipCode : String
  websiteUrl : Option String := none
  linkedinUrl : Option String := none
  bio : Option String := none
  specialties : Option (List String) := none
  profileUrl : Option String := none
  priorityScore : Option Nat := none
deriving DecidableEq, Repr

/-- HIGH_PRIORITY_KEYWORDS of the scraper (the multi-source version). -/
def HIGH_PRIORITY_KEYWORDS : List String :=
  ["tax", "captive", "reinsurance", "831(b)", "831b",
   "high net worth", "hnw", "uhnw", "ultra high",
   "business owner", "entrepreneur", "succession",
   "estate planning", "wealth preservation", "tax optimization",
   "strategic", "proactive", "advanced tax",
   "cpa", "certified public accountant", "tax planning"]

/-- MEDIUM_PRIORITY_KEYWORDS of the scraper (the multi-source version). -/
def MEDIUM_PRIORITY_KEYWORDS : List String :=
  ["accounting", "financial planning", "wealth management",
   "investment", "retirement", "executive", "corporate",
   "cfp", "fiduciary", "fee-only"]

/-- The lower-cased search text of calculatePriorityScore: name, firm, bio,
designation and specialties, with absent and empty fields dropped by the
Boolean filter, joined by spaces. -/
def searchText (a : ScrapedAdvisor) : String :=
  let fields := ([some a.name, a.firmName, a.bio, some a.designation] ++
      (a.specialties.getD []).map some).filterMap id
  jsToLower (String.mk
    (intercalateL [' '] ((fields.filter (fun s => !(s == ""))).map String.toList)))

/-- The keyword accumulation loop of calculatePriorityScore. -/
def keywordScore (points : Nat) (text : String) (kws : List String) : Nat :=
  kws.foldl (fun acc kw => if strIncludes text kw then acc + points else acc) 0

/-- calculatePriorityScore from the scraper: capped high- and
medium-priority keyword contributions, a CPA bonus, a specialties bonus,
clamped to 100. -/
def calculatePriorityScore (a : ScrapedAdvisor) : Nat :=
  let text := searchText a
  let highScore := keywordScore 10 text HIGH_PRIORITY_KEYWORDS
  let s1 := min highScore 50
  let mediumScore := keywordScore 5 text MEDIUM_PRIORITY_KEYWORDS
  let s2 := s1 + min mediumScore 25
  let s3 := if strIncludes text "cpa" || strIncludes a.designation "CPA" then s2 + 15 else s2
  let s4 := match a.specialties with
    | some l => if 0 < l.length then s3 + 10 else s3
    | none => s3
  min s4 100

/-- The priority score as the specification words it: ten points per distinct
high-priority keyword match capped at 50, five per distinct medium-priority
match capped at 25, a flat 15 when the designation or search string contains
"cpa", a flat 10 when any specialty is present, clamped to 100. -/
def priorityScoreSpec (a : ScrapedAdvisor) : Nat :=
  let text := searchText a
  let high := min (10 * (HIGH_PRIORITY_KEYWORDS.filter (fun kw => strIncludes text kw)).length) 50
  let med := min (5 * (MEDIUM_PRIORITY_KEYWORDS.filter (fun kw => strIncludes text kw)).length) 25
  let cpa := if strIncludes text "cpa" || strIncludes a.designation "CPA" then 15 else 0
  let spc := if 0 < (a.specialties.getD []).length then 10 else 0
  min (high + med + cpa + spc) 100

/-- Attach the computed priority score, as the map step of sortByPriority. -/
def attachScore (a : ScrapedAdvisor) : ScrapedAdvisor :=
  { a with priorityScore := some (calculatePriorityScore a) }

/-- The sort key of the comparator: priorityScore, 0 when absent. -/
def scoreKey (a : ScrapedAdvisor) : Nat := a.priorityScore.getD 0

/-- The order the comparator of sortByPriority establishes: an element may
precede another exactly when its score is at least as large. -/
def byScoreDesc (a b : ScrapedAdvisor) : Prop := scoreKey b ≤ scoreKey a

instance : DecidableRel byScoreDesc := fun _ _ => Nat.decLe _ _

instance : IsTotal ScrapedAdvisor byScoreDesc :=
  ⟨fun a b => Nat.le_total (scoreKey b) (scoreKey a)⟩

instance : IsTrans ScrapedAdvisor byScoreDesc :=
  ⟨fun _ _ _ hab hbc => le_trans hbc hab⟩

/-- sortByPriority from the scraper: scores are attached and the list is
sorted descending by score. ECMAScript mandates a stable sort, whose result
is uniquely determined by the comparator; a stable insertion sort realises
it. -/
def sortByPriority (l : List ScrapedAdvisor) : List ScrapedAdvisor :=
  List.insertionSort byScoreDesc (l.map attachScore)

/-- The rewritten-bio record returned by the AI rewriter. -/
structure RewrittenBio where
  bio : String
  specialties : List String
deriving DecidableEq, Repr

/-- MAX_RETRIES of the AI rewriter. -/
def MAX_RETRIES : Nat := 3

/-- RETRY_DELAY_MS of the AI rewriter. -/
def RETRY_DELAY_MS : Nat := 2000

/-- What one call of rewriteBioForSEO did: its overall result, the 1-based
attempt numbers tried in order, and the backoff delays slept in order. -/
structure RewriteTrace where
  result : Except String RewrittenBio
  attemptsMade : List Nat
  delays : List Nat

/-- The retry loop of rewriteBioForSEO: fuel counts remaining attempts,
attempt is the 1-based attempt number, lastError the last failure seen.
The per-attempt outcome of the external model call is the oracle. -/
def rewriteGo (oracle : Nat → Except String RewrittenBio) :
    Nat → Nat → Option String → RewriteTrace
  | 0, _, lastError => ⟨.error (lastError.getD "All rewrite attempts failed"), [], []⟩
  | fuel + 1, attempt, _ =>
    match oracle attempt with
    | .ok r => ⟨.ok r, [attempt], []⟩
    | .error e =>
      let rest := rewriteGo oracle fuel (attempt + 1) (some e)
      ⟨rest.result, attempt :: rest.attemptsMade,
        (if attempt < MAX_RETRIES then [RETRY_DELAY_MS * attempt] else []) ++ rest.delays⟩

/-- rewriteBioForSEO from the AI rewriter module: an immediate error without
any attempt when the API key is absent; otherwise up to MAX_RETRIES
attempts with a linear backoff delay after each failed attempt except the
last, propagating the last error. -/
def rewriteBioForSEO (hasApiKey : Bool) (oracle : Nat → Except String RewrittenBio) :
    RewriteTrace :=
  if hasApiKey then rewriteGo oracle MAX_RETRIES 1 none
  else ⟨.error "ANTHROPIC_API_KEY is required", [], []⟩

/-- generateFallbackBio from the AI rewriter module: a deterministic
templated bio and a fixed three-item specialty list; an absent or empty
firm name contributes nothing. -/
def generateFallbackBio (advisorName designation location : String)
    (firmName : Option String) : RewrittenBio :=
  let firm := match firmName with
    | some f => if f = "" then "" else " at " ++ f
    | none => ""
  { bio := advisorName ++ (" is a distinguished " ++ (designation ++ (firm ++
      (" based in " ++ (location ++
      (". With a focus on strategic wealth and tax planning, " ++ (advisorName ++
      (" helps clients navigate complex financial decisions and optimize their tax positions. Specializing in innovative risk management solutions including captive insurance and reinsurance strategies, " ++
      (advisorName ++
      " delivers comprehensive financial guidance tailored to each client's unique situation."))))))))),
    specialties := ["Tax Planning", "Wealth Management", "Risk Management"] }

/-- The observable state of the advisors table: which slugs and website
urls exist. -/
structure Storage where
  slugExists : String → Bool
  urlExists : String → Bool

/-- JavaScript truthiness of an optional string: present and nonempty. -/
def jsTruthy : Option String → Bool
  | some s => !(s == "")
  | none => false

/-- checkDuplicate from the scraper: no truthy argument means no duplicate;
otherwise an OR-query whose website-url and slug conditions are each added
only when the corresponding argument is truthy. -/
def checkDuplicate (st : Storage) (websiteUrl slug : Option String) : Bool :=
  if !(jsTruthy websiteUrl) && !(jsTruthy slug) then false
  else
    (match websiteUrl with
      | some w => if w == "" then false else st.urlExists w
      | none => false) ||
    (match slug with
      | some s => if s == "" then false else st.slugExists s
      | none => false)

/-- The expression both duplicate-check call sites pass for the primary
specialty: the first specialty when truthy, else the designation. -/
def specOrDesignation (a : ScrapedAdvisor) : String :=
  match a.specialties with
  | some (s :: _) => if s = "" then a.designation else s
  | _ => a.designation

/-- The slug the duplicate checks and the insert derive for a candidate. -/
def derivedSlug (a : ScrapedAdvisor) : String :=
  generateAdvisorSlug a.name (normalizeCity a.city) (some (specOrDesignation a))

/-- checkDuplicateBySlug from the scraper: existence of the slug derived
from name, normalized city and specialty. -/
def checkDuplicateBySlug (st : Storage) (name city specialty : String) : Bool :=
  st.slugExists (generateAdvisorSlug name (normalizeCity city) (some specialty))

/-- The column values the scraper inserts for one advisor. -/
structure AdvisorRow where
  name : String
  firmName : Option String
  designation : String
  city : String
  state : String
  zipCode : String
  websiteUrl : Option String
  linkedinUrl : Option String
  bio : String
  specialties : List String
  isVerifiedStrategist : Bool
  slug : String
deriving DecidableEq, Repr

/-- Spreading through a Set: first occurrences kept, in order. -/
def jsSetDedupGo (seen : List String) : List String → List String
  | [] => []
  | x :: rest =>
    if seen.contains x then jsSetDedupGo seen rest
    else x :: jsSetDedupGo (x :: seen) rest

/-- The specialty merge of processAndInsertAdvisor before its six-item cap. -/
def jsSetDedup (l : List String) : List String := jsSetDedupGo [] l

/-- The driver's error text for a violated unique slug index: the message
the data store raises when the schema's unique constraint on slug fires. -/
def pgDuplicateSlugError : String :=
  "error: duplicate key value violates unique constraint \"advisors_slug_idx\""

/-- The environment a pipeline run depends on: API-key presence, the
per-attempt outcomes of the external model call, and any non-constraint
insert failure. -/
structure PipelineEnv where
  hasApiKey : Bool
  oracle : Nat → Except String RewrittenBio
  insertFailure : AdvisorRow → Option String

/-- The database insert: the unique index on slug rejects an existing slug
with the driver's duplicate-key error; any other failure comes from the
environment; success records the new slug and website url. -/
def dbInsert (env : PipelineEnv) (st : Storage) (row : AdvisorRow) : Except String Storage :=
  if st.slugExists row.slug then .error pgDuplicateSlugError
  else match env.insertFailure row with
    | some msg => .error msg
    | none => .ok
        { slugExists := fun s => s == row.slug || st.slugExists s,
          urlExists := fun u => (match row.websiteUrl with
            | some w => u == w
            | none => false) || st.urlExists u }

/-- The externally visible steps processAndInsertAdvisor performs. -/
inductive Effect where
  | checkDupBySlug : Effect
  | checkDup : Effect
  | rewriteBio : Effect
  | fallbackBio : Effect
  | insertRow : AdvisorRow → Effect
deriving DecidableEq, Repr

/-- The result object processAndInsertAdvisor returns. -/
structure InsertResult where
  success : Bool
  slug : Option String := none
  error : Option String := none
deriving DecidableEq, Repr

/-- processAndInsertAdvisor from the scraper: normalize the location, derive
the slug, pre-check duplicates, rewrite the bio falling back on any rewrite
failure, merge specialties and insert; any insert failure is caught and
reported as an insert error. Returns the result, the updated storage and
the effect trace. -/
def processAndInsertAdvisor (env : PipelineEnv) (st : Storage) (scraped : ScrapedAdvisor) :
    InsertResult × Storage × List Effect :=
  let normalizedCity := normalizeCity scraped.city
  let normalizedState := normalizeState scraped.state
  let slug := generateAdvisorSlug scraped.name normalizedCity (some (specOrDesignation scraped))
  if checkDuplicate st scraped.websiteUrl (some slug) then
    (⟨false, none, some "Duplicate advisor (website or slug already exists)"⟩, st,
      [Effect.checkDup])
  else
    let rt := rewriteBioForSEO env.hasApiKey env.oracle
    let rewrittenAndEffs :=
      match rt.result with
      | .ok r => (r, [Effect.rewriteBio])
      | .error _ =>
        (generateFallbackBio scraped.name scraped.designation
          (normalizedCity ++ (", " ++ normalizedState)) scraped.firmName,
         [Effect.rewriteBio, Effect.fallbackBio])
    let rewritten := rewrittenAndEffs.1
    let finalSpecialties :=
      (jsSetDedup ((scraped.specialties.getD []) ++ rewritten.specialties)).take 6
    let row : AdvisorRow :=
      { name := scraped.name, firmName := scraped.firmName,
        designation := scraped.designation, city := normalizedCity,
        state := normalizedState, zipCode := scraped.zipCode,
        websiteUrl := scraped.websiteUrl, linkedinUrl := scraped.linkedinUrl,
        bio := rewritten.bio, specialties := finalSpecialties,
        isVerifiedStrategist := false, slug := slug }
    match dbInsert env st row with
    | .ok st' =>
      (⟨true, some slug, none⟩, st',
        Effect.checkDup :: rewrittenAndEffs.2 ++ [Effect.insertRow row])
    | .error msg =>
      (⟨false, none, some ("Insert error: " ++ msg)⟩, st,
        Effect.checkDup :: rewrittenAndEffs.2)

/-- How the pipeline loop tallies one candidate. -/
inductive Outcome where
  | success : Outcome
  | skipped : Outcome
  | errored : Outcome
deriving DecidableEq, Repr

/-- The tally classification of the pipeline loop: success, else an error
message containing the word Duplicate counts as a skip, else an error. -/
def classifyOutcome (r : InsertResult) : Outcome :=
  if r.success then .success
  else if (match r.error with
    | some e => strIncludes e "Duplicate"
    | none => false) then .skipped
  else .errored

/-- One candidate of the run: the advisor, the effects performed for it and
how it was tallied. -/
structure TraceEntry where
  adv : ScrapedAdvisor
  events : List Effect
  outcome : Outcome
deriving DecidableEq, Repr

/-- Success, skip and error increments of one outcome. -/
def outcomeCounts : Outcome → Nat × Nat × Nat
  | .success => (1, 0, 0)
  | .skipped => (0, 1, 0)
  | .errored => (0, 0, 1)

/-- The processing loop of the pipeline: candidates processed in list
order, threading the storage, tallying success, skip and error counts. -/
def processLoop (env : PipelineEnv) : Storage → List ScrapedAdvisor →
    Storage × List TraceEntry × Nat × Nat × Nat
  | st, [] => (st, [], 0, 0, 0)
  | st, a :: rest =>
    let step := processAndInsertAdvisor env st a
    let oc := classifyOutcome step.1
    let next := processLoop env step.2.1 rest
    let incs := outcomeCounts oc
    (next.1, ⟨a, step.2.2, oc⟩ :: next.2.1,
      incs.1 + next.2.2.1, incs.2.1 + next.2.2.2.1, incs.2.2 + next.2.2.2.2)

/-- The aggregate outcome of one source of the pipeline. -/
structure RunResult where
  successCount : Nat
  skippedCount : Nat
  errorCount : Nat
  trace : List TraceEntry
  finalStorage : Storage

/-- The early duplicate check the pipeline applies to each candidate. -/
def earlyDup (st : Storage) (a : ScrapedAdvisor) : Bool :=
  checkDuplicateBySlug st a.name a.city (specOrDesignation a)

/-- One source of runScraperPipeline: the early per-candidate duplicate
check against the storage as it stands when the source starts (no insert
happens during that loop), then priority sorting of the survivors, then the
processing loop. -/
def runSourcePipeline (env : PipelineEnv) (st0 : Storage) (advisors : List ScrapedAdvisor) :
    RunResult :=
  let dups := advisors.filter (fun a => earlyDup st0 a)
  let earlyEntries := dups.map (fun a =>
    (⟨a, [Effect.checkDupBySlug], Outcome.skipped⟩ : TraceEntry))
  let newAdvisors := advisors.filter (fun a => !(earlyDup st0 a))
  let prioritized := sortByPriority newAdvisors
  let proc := processLoop env st0 prioritized
  ⟨proc.2.2.1, dups.length + proc.2.2.2.1, proc.2.2.2.2,
    earlyEntries ++ proc.2.1, proc.1⟩

/-- Capture groups of one match of the Wealthtender card pattern. -/
structure WtCardMatch where
  headshot : String
  nameBlock : String
  city : String
  state : String
deriving DecidableEq, Repr

/-- Capture groups of one match of the Samslist advisor pattern. -/
structure SamslistMatch where
  imageAlt : String
  specialtiesStr : String
  displayName : String
deriving DecidableEq, Repr

/-- A scraped markdown page, represented by the streams of matches the
source patterns yield on it (the regular-expression engine is a runtime
library external to the repository); the credential-stripping replacement
applied to a Wealthtender name is likewise an oracle. -/
structure MarkdownDoc where
  wtCards : List WtCardMatch
  headshotNames : List String
  locations : List (String × String)
  samslistMatches : List SamslistMatch
  stripCred : String → String

/-- The navigation and boilerplate skip test of the Samslist parser. -/
def samslistSkip (displayName : String) : Bool :=
  strIncludes displayName "Home" || strIncludes displayName "Contact" ||
  strIncludes displayName "View More" || strIncludes displayName "Professional Services" ||
  strIncludes displayName "Help Guides" || strIncludes displayName "Choose Specialties" ||
  displayName.length < 3 ||
  (match displayName.toList with
   | '#' :: _ => true
   | '!' :: _ => true
   | _ => false)

/-- The designation inference of the Samslist parser. -/
def samslistDesignation (specialtiesStr : String) : String :=
  let lower := jsToLower specialtiesStr
  if strIncludes lower "tax" && (strIncludes lower "wealth" || strIncludes lower "financial") then
    "CPA & Wealth Manager"
  else if strIncludes lower "tax" || strIncludes lower "accounting" then "CPA"
  else "Wealth Manager"

/-- Comma-splitting, trimming and empty-dropping of a specialty string. -/
def splitSpecialties (s : String) : List String :=
  ((splitOnChar ',' s.toList).map (fun w => jsTrim (String.mk w))).filter
    (fun t => !(t == ""))

/-- The match loop of parseSamslistAdvisors: stops at the limit, skips
boilerplate names, deduplicates by name and caps specialties at five. -/
def samslistLoop (limit : Nat) (acc : List ScrapedAdvisor) :
    List SamslistMatch → List ScrapedAdvisor
  | [] => acc
  | m :: rest =>
    if limit ≤ acc.length then acc
    else
      let specialtiesStr := jsTrim m.specialtiesStr
      let displayName := jsTrim m.displayName
      if samslistSkip displayName then samslistLoop limit acc rest
      else if acc.any (fun a => a.name == displayName) then samslistLoop limit acc rest
      else
        samslistLoop limit (acc ++ [{
          name := displayName,
          designation := samslistDesignation specialtiesStr,
          city := "New York", state := "NY", zipCode := "10001",
          specialties := some ((splitSpecialties specialtiesStr).take 5) }]) rest

/-- parseSamslistAdvisors from the scraper: the single Samslist pattern; no
alternative pattern exists for this source. -/
def parseSamslistAdvisors (doc : MarkdownDoc) (limit : Nat) : List ScrapedAdvisor :=
  samslistLoop limit [] doc.samslistMatches

/-- The designation inference of the Wealthtender parsers. -/
def wtDesignation (nameLower : String) : String :=
  if strIncludes nameLower "cpa" then
    (if strIncludes nameLower "cfp" then "CPA & Wealth Manager" else "CPA")
  else "Wealth Manager"

/-- The credential-to-specialty table of the Wealthtender primary parser. -/
def wtSpecialtiesPrimary (nameLower : String) : List String :=
  (if strIncludes nameLower "cpa" then ["Tax Planning"] else []) ++
  (if strIncludes nameLower "cfp" then ["Financial Planning"] else []) ++
  (if strIncludes nameLower "cepa" then ["Exit Planning"] else []) ++
  (if strIncludes nameLower "ricp" then ["Retirement Planning"] else []) ++
  (if strIncludes nameLower "cfa" then ["Investment Management"] else [])

/-- The credential-to-specialty table of the Wealthtender alternative
parser, which additionally recognises an MBA. -/
def wtSpecialtiesAlt (nameLower : String) : List String :=
  wtSpecialtiesPrimary nameLower ++
  (if strIncludes nameLower "mba" then ["Business Strategy"] else [])

/-- Maximal runs of non-separator characters, as splitting on a
one-or-more-separators pattern yields after empty pieces are dropped. -/
def runsGo (isSep : Char → Bool) (cur : List Char) : List Char → List (List Char)
  | [] => if cur.isEmpty then [] else [cur.reverse]
  | c :: rest =>
    if isSep c then
      (if cur.isEmpty then runsGo isSep [] rest else cur.reverse :: runsGo isSep [] rest)
    else runsGo isSep (c :: cur) rest

/-- The nameBlock split of the Wealthtender primary parser: split on runs
of newline or backslash, keeping segments whose trim is nonempty. -/
def nameBlockLines (s : String) : List String :=
  ((runsGo (fun c => c == '\n' || c == '\\') [] s.toList).map String.mk).filter
    (fun l => !(jsTrim l == ""))

/-- Join a list of strings with single spaces. -/
def joinSpace (l : List String) : String :=
  String.mk (intercalateL [' '] (l.map String.toList))

/-- The match loop of parseWealthtenderAdvisors: stops at the limit,
deduplicates by headshot name, infers designation and specialties from the
credentials, extracts firm and bio from the name block, and strips
credentials from the record name (keeping the raw name when stripping
leaves nothing). -/
def wtPrimaryLoop (strip : String → String) (limit : Nat) (seen : List String)
    (acc : List ScrapedAdvisor) : List WtCardMatch → List ScrapedAdvisor
  | [] => acc
  | m :: rest =>
    if limit ≤ acc.length then acc
    else
      let name := jsTrim m.headshot
      if seen.contains name then wtPrimaryLoop strip limit seen acc rest
      else
        let nameBlock := jsTrim m.nameBlock
        let city := jsTrim m.city
        let state := jsTrim m.state
        let nameLower := jsToLower name
        let lines := nameBlockLines nameBlock
        let firmName := if 2 ≤ lines.length then jsTrim (lines.getD 1 "") else ""
        let bio := if 2 ≤ lines.length then jsTrim (joinSpace (lines.drop 2)) else ""
        let strippedName := jsTrim (strip name)
        wtPrimaryLoop strip limit (name :: seen) (acc ++ [{
          name := if strippedName == "" then name else strippedName,
          firmName := if firmName == "" then none else some firmName,
          designation := wtDesignation nameLower,
          city := normalizeCity city, state := normalizeState state,
          zipCode := "00000",
          bio := some (if bio == "" then
            name ++ (" is a financial professional based in " ++ (city ++ (", " ++ (state ++ "."))))
            else bio),
          specialties := some (let sp := wtSpecialtiesPrimary nameLower
            if sp.isEmpty then ["Financial Planning", "Wealth Management"] else sp) }]) rest

/-- The primary Wealthtender pass alone. -/
def parseWealthtenderPrimary (doc : MarkdownDoc) (limit : Nat) : List ScrapedAdvisor :=
  wtPrimaryLoop doc.stripCred limit [] [] doc.wtCards

/-- The name collection of the Wealthtender alternative parser. -/
def wtAltNamesGo (seen : List String) : List String → List String
  | [] => []
  | n :: rest =>
    let name := jsTrim n
    if !(seen.contains name) && 3 < name.length then
      name :: wtAltNamesGo (name :: seen) rest
    else wtAltNamesGo seen rest

/-- The location filtering of the Wealthtender alternative parser. -/
def wtAltLocations (locs : List (String × String)) : List (String × String) :=
  (locs.map (fun p => (jsTrim p.1, jsTrim p.2))).filter (fun p =>
    decide (2 < p.1.length) && decide (p.1.length < 30) &&
      (List.lookup p.2 STATE_NAMES).isSome)

/-- parseWealthtenderAlternative from the scraper: pairs collected names
with collected locations (cycling through the locations, with a New York
default when none exist), up to the limit. -/
def parseWealthtenderAlternative (doc : MarkdownDoc) (limit : Nat) : List ScrapedAdvisor :=
  let names := wtAltNamesGo [] doc.headshotNames
  let locations := wtAltLocations doc.locations
  (List.range (min names.length limit)).map (fun i =>
    let name := names.getD i ""
    let location :=
      if i < locations.length then locations.getD i ("", "")
      else if 0 < locations.length then locations.getD (i % locations.length) ("", "")
      else ("New York", "NY")
    let nameLower := jsToLower name
    { name := name,
      designation := wtDesignation nameLower,
      city := normalizeCity location.1, state := normalizeState location.2,
      zipCode := "00000",
      specialties := some (let sp := wtSpecialtiesAlt nameLower
        if sp.isEmpty then ["Financial Planning", "Wealth Management"] else sp) })

/-- parseWealthtenderAdvisors from the scraper: the primary card pattern,
falling back to the alternative parser when it yields zero records. -/
def parseWealthtenderAdvisors (doc : MarkdownDoc) (limit : Nat) : List ScrapedAdvisor :=
  let advisors := parseWealthtenderPrimary doc limit
  if advisors.isEmpty then parseWealthtenderAlternative doc limit else advisors

/-- The patterns a parse applied, in order. -/
inductive ParseStrategy where
  | wtPrimary : ParseStrategy
  | wtAlternative : ParseStrategy
  | samslistPrimary : ParseStrategy
deriving DecidableEq, Repr

/-- The patterns parseWealthtenderAdvisors applies, in order. -/
def wtStrategiesUsed (doc : MarkdownDoc) (limit : Nat) : List ParseStrategy :=
  if (parseWealthtenderPrimary doc limit).isEmpty then
    [ParseStrategy.wtPrimary, ParseStrategy.wtAlternative]
  else [ParseStrategy.wtPrimary]

/-- The patterns parseSamslistAdvisors applies: exactly its one pattern. -/
def samslistStrategiesUsed (_doc : MarkdownDoc) (_limit : Nat) : List ParseStrategy :=
  [ParseStrategy.samslistPrimary]

/-- A markdown document none of whose patterns match, as the empty page
yields (every source pattern requires at least one literal character). -/
def emptyDoc : MarkdownDoc :=
  ⟨[], [], [], [], fun s => s⟩

/-- No two adjacent hyphens. -/
def noDbl : List Char → Bool
  | c :: d :: rest => !(c == '-' && d == '-') && noDbl (d :: rest)
  | _ => true

/-- The character class the claim allows in a slug. -/
def slugChar (c : Char) : Bool := isAlnumLower c || c == '-'

/-- The shape the claim asserts of every generated slug. -/
def claimedSlugShape (s : String) : Prop :=
  s.length ≤ 100 ∧ (∀ c ∈ s.toList, slugChar c = true) ∧
    s.toList.head? ≠ some '-' ∧ s.toList.getLast? ≠ some '-'

/-- normalizeState as the claim words it: the trimmed upper-cased input when
it is a known two-letter code; else the abbreviation of the full state name
it matches case-insensitively; else its first two characters. -/
def normalizeStateSpec (state : String) : String :=
  let u := jsToUpper (jsTrim state)
  if u ∈ STATE_NAMES.map Prod.fst then u
  else
    match STATE_NAMES.find? (fun p => jsToUpper p.2 == u) with
    | some p => p.1
    | none => jsToUpper (String.mk ((jsTrim state).toList.take 2))

/-- The row the orchestrator inserts when the rewrite has failed and the
fallback bio is used. -/
def fallbackRow (scraped : ScrapedAdvisor) : AdvisorRow :=
  let normalizedCity := normalizeCity scraped.city
  let normalizedState := normalizeState scraped.state
  let rewritten := generateFallbackBio scraped.name scraped.designation
    (normalizedCity ++ (", " ++ normalizedState)) scraped.firmName
  { name := scraped.name, firmName := scraped.firmName,
    designation := scraped.designation, city := normalizedCity,
    state := normalizedState, zipCode := scraped.zipCode,
    websiteUrl := scraped.websiteUrl, linkedinUrl := scraped.linkedinUrl,
    bio := rewritten.bio,
    specialties := (jsSetDedup ((scraped.specialties.getD []) ++
      rewritten.specialties)).take 6,
    isVerifiedStrategist := false, slug := derivedSlug scraped }

/-- A storage with no advisors. -/
def emptyStorage : Storage := ⟨fun _ => false, fun _ => false⟩

/-- An environment whose model call always succeeds and whose inserts never
fail for non-constraint reasons. -/
def envAllOk : PipelineEnv :=
  ⟨true, fun _ => Except.ok ⟨"rewritten bio", ["AI Specialty"]⟩, fun _ => none⟩

/-- An environment whose model call always fails. -/
def envAIDown : PipelineEnv :=
  ⟨true, fun _ => Except.error "503 service unavailable", fun _ => none⟩

/-- A concrete well-formed candidate. -/
def janeAdvisor : ScrapedAdvisor :=
  { name := "Jane Doe", designation := "CPA", city := "Duluth", state := "GA",
    zipCode := "30096", specialties := some ["Tax"] }

/-- A storage already holding the slug janeAdvisor derives. -/
def janeStorage : Storage := ⟨fun s => s == "jane-doe-duluth-tax", fun _ => false⟩

/-- A degenerate candidate all of whose identifying fields are empty; its
derived slug is the empty string. -/
def blankAdvisor : ScrapedAdvisor :=
  { name := "", designation := "", city := "", state := "", zipCode := "" }

/-- The status mapping of the advisor-creation route for a failed insert:
a unique-violation code on a slug constraint yields the conflict status
409, anything else the generic 500. -/
def advisorsPostErrorStatus (code : String) (constraint : Option String) : Nat :=
  if code == "23505" && (match constraint with
    | some c => strIncludes c "slug"
    | none => false) then 409 else 500

/-- The claim's fallback property at one parse: an empty record list is
returned only after at least two patterns were tried. -/
def fellBackBeforeEmpty (records : List ScrapedAdvisor)
    (strategies : List ParseStrategy) : Prop :=
  records = [] → 2 ≤ strategies.length

/-- A page on which every pattern yields one match. -/
def sampleDoc : MarkdownDoc :=
  ⟨[⟨"John Smith, CPA", "block", "Duluth", "GA"⟩], ["John Smith, CPA"],
   [("Duluth", "GA")], [⟨"alt", "Tax", "John Smith"⟩], fun s => s⟩

section ScoreLemmas

/-- The keyword accumulation loop computes the points times the number of
matching keywords, shifted by the accumulator. -/
theorem keywordScore_go (points : Nat) (text : String) :
    ∀ (kws : List String) (a : Nat),
      kws.foldl (fun acc kw => if strIncludes text kw then acc + points else acc) a =
        a + points * (kws.filter (fun kw => strIncludes text kw)).length := by
  intro kws
  induction kws with
  | nil => intro a; simp
  | cons k rest ih =>
    intro a
    by_cases h : strIncludes text k = true
    · simp only [List.foldl_cons, List.filter_cons, h, if_true, ih, List.length_cons,
        Nat.mul_succ]
      omega
    · simp only [List.foldl_cons, List.filter_cons, h, Bool.false_eq_true, if_false, ih]

theorem keywordScore_eq (points : Nat) (text : String) (kws : List String) :
    keywordScore points text kws =
      points * (kws.filter (fun kw => strIncludes text kw)).length := by
  unfold keywordScore
  simpa using keywordScore_go points text kws 0

end ScoreLemmas

section SlugLemmas

theorem isAlnumLower_ne_hyphen {c : Char} (h : isAlnumLower c = true) : c ≠ '-' := by
  intro hc
  subst hc
  exact absurd h (by decide)

/-- The collapse invoked inside a run never starts with a hyphen. -/
theorem collapseGo_true_head : ∀ l : List Char, (collapseGo true l).head? ≠ some '-' := by
  intro l
  induction l with
  | nil => simp [collapseGo]
  | cons c rest ih =>
    simp only [collapseGo]
    split
    · next h =>
      simp only [List.head?_cons, ne_eq, Option.some.injEq]
      exact isAlnumLower_ne_hyphen h
    · exact ih

theorem noDbl_cons (c : Char) (X : List Char)
    (hc : c ≠ '-' ∨ X.head? ≠ some '-') (hX : noDbl X = true) :
    noDbl (c :: X) = true := by
  cases X with
  | nil => rfl
  | cons d rest =>
    simp only [noDbl, Bool.and_eq_true, Bool.not_eq_true', Bool.and_eq_false_iff,
      beq_eq_false_iff_ne, ne_eq]
    refine ⟨?_, hX⟩
    rcases hc with hc | hc
    · left; simpa using hc
    · right; simpa using hc

theorem noDbl_collapseGo : ∀ (l : List Char) (b : Bool), noDbl (collapseGo b l) = true := by
  intro l
  induction l with
  | nil => intro b; rfl
  | cons c rest ih =>
    intro b
    simp only [collapseGo]
    split
    · next h => exact noDbl_cons _ _ (Or.inl (isAlnumLower_ne_hyphen h)) (ih false)
    · split
      · exact ih true
      · exact noDbl_cons _ _ (Or.inr (collapseGo_true_head rest)) (ih true)

theorem noDbl_tail {c : Char} {X : List Char} (h : noDbl (c :: X) = true) :
    noDbl X = true := by
  cases X with
  | nil => rfl
  | cons d rest =>
    simp only [noDbl, Bool.and_eq_true] at h
    exact h.2

theorem noDbl_trimLead {l : List Char} (h : noDbl l = true) : noDbl (trimLead l) = true := by
  unfold trimLead
  split
  · cases l with
    | nil => rfl
    | cons c rest => exact noDbl_tail h
  · exact h

/-- After removal of a single trailing hyphen, a hyphen-run-free list does
not end in a hyphen. -/
theorem trimTrail_getLast {m : List Char} (h : noDbl m = true) :
    (trimTrail m).getLast? ≠ some '-' := by
  induction m with
  | nil => simp [trimTrail]
  | cons c m' ih =>
    cases m' with
    | nil =>
      simp only [trimTrail]
      split
      · simp
      · next hne => simpa using hne
    | cons d rest =>
      have hrest : noDbl (d :: rest) = true := noDbl_tail h
      have htt := ih hrest
      show (c :: trimTrail (d :: rest)).getLast? ≠ some '-'
      cases hc : trimTrail (d :: rest) with
      | nil =>
        have hd : d = '-' := by
          cases rest with
          | nil =>
            by_cases hd : d = '-'
            · exact hd
            · simp [trimTrail, hd] at hc
          | cons e rest' => simp [trimTrail] at hc
        have hcne : c ≠ '-' := by
          subst hd
          intro hceq
          subst hceq
          simp [noDbl] at h
        simpa using hcne
      | cons x xs =>
        rw [List.getLast?_cons_cons]
        rw [hc] at htt
        exact htt

/-- The head after trimming the lead of a collapse is never a hyphen. -/
theorem trimLead_collapse_head (l : List Char) :
    (trimLead (collapseGo false l)).head? ≠ some '-' := by
  cases l with
  | nil => simp [collapseGo, trimLead]
  | cons c rest =>
    by_cases h : isAlnumLower c = true
    · have hc := isAlnumLower_ne_hyphen h
      have hcol : collapseGo false (c :: rest) = c :: collapseGo false rest := by
        simp [collapseGo, h]
      have htl : trimLead (c :: collapseGo false rest) = c :: collapseGo false rest := by
        simp [trimLead, hc]
      rw [hcol, htl]
      simpa using hc
    · have hcol : collapseGo false (c :: rest) = '-' :: collapseGo true rest := by
        simp [collapseGo, h]
      have htl : trimLead ('-' :: collapseGo true rest) = collapseGo true rest := by
        simp [trimLead]
      rw [hcol, htl]
      exact collapseGo_true_head rest

theorem trimTrail_head (m : List Char) :
    (trimTrail m).head? = none ∨ (trimTrail m).head? = m.head? := by
  cases m with
  | nil => left; rfl
  | cons c m' =>
    cases m' with
    | nil =>
      simp only [trimTrail]
      split
      · left; rfl
      · right; rfl
    | cons d rest => right; rfl

theorem mem_collapseGo : ∀ (l : List Char) (b : Bool) (c : Char),
    c ∈ collapseGo b l → isAlnumLower c = true ∨ c = '-' := by
  intro l
  induction l with
  | nil => intro b c h; simp [collapseGo] at h
  | cons x rest ih =>
    intro b c h
    simp only [collapseGo] at h
    split at h
    · next hx =>
      rcases List.mem_cons.mp h with h | h
      · subst h; exact Or.inl hx
      · exact ih false c h
    · split at h
      · exact ih true c h
      · rcases List.mem_cons.mp h with h | h
        · exact Or.inr h
        · exact ih true c h

theorem mem_trimTrail : ∀ (m : List Char) (c : Char), c ∈ trimTrail m → c ∈ m := by
  intro m
  induction m with
  | nil => intro c h; simp [trimTrail] at h
  | cons x m' ih =>
    intro c h
    cases m' with
    | nil =>
      simp only [trimTrail] at h
      split at h
      · simp at h
      · simpa using h
    | cons d rest =>
      rcases List.mem_cons.mp h with h | h
      · subst h; exact List.mem_cons_self _ _
      · exact List.mem_cons_of_mem _ (ih c h)

theorem mem_trimLead {l : List Char} {c : Char} (h : c ∈ trimLead l) : c ∈ l := by
  unfold trimLead at h
  split at h
  · exact List.mem_of_mem_tail h
  · exact h

end SlugLemmas

/-- C1: for every ScrapedAdvisor (including one with no bio, no specialties
and a non-CPA designation) calculatePriorityScore equals the
specification's decomposition — 10 points per distinct high-priority
keyword match capped at 50, plus 5 per distinct medium-priority match
capped at 25, plus a flat 15 when the designation or search string contains
"cpa", plus a flat 10 when any specialty is present, clamped to 100 — and
therefore lies in the closed range [0, 100], the lower bound holding
because the score is a natural number. -/
theorem calculatePriorityScore_in_range_and_as_specified (a : ScrapedAdvisor) :
    calculatePriorityScore a = priorityScoreSpec a ∧ priorityScoreSpec a ≤ 100 := by
  constructor
  · simp only [calculatePriorityScore, priorityScoreSpec, keywordScore_eq]
    cases hs : a.specialties with
    | none => split_ifs <;> simp_all
    | some l => split_ifs <;> simp_all
  · exact Nat.min_le_right _ _

/-- C2 counterexample: the slug of a 99-character name with a one-character
city is truncated exactly before the city, leaving a trailing hyphen, so
the claimed shape (in particular the absence of a trailing hyphen) fails. -/
theorem generateAdvisorSlug_shape_counterexample :
    ¬ claimedSlugShape (generateAdvisorSlug (String.mk (List.replicate 99 'a')) "b" none) := by
  intro h
  exact h.2.2.2 (by decide)

/-- C2 amended: slug generation is deterministic, and the slug has length
at most 100, contains only lower-case letters, digits and hyphens, and has
no leading hyphen; it also has no trailing hyphen whenever the slug before
the 100-character truncation already fits in 100 characters (the
counterexample shows the truncation itself can expose a trailing hyphen). -/
theorem generateAdvisorSlug_shape (name city : String) (primarySpecialty : Option String) :
    (∀ n c p, name = n → city = c → primarySpecialty = p →
      generateAdvisorSlug name city primarySpecialty = generateAdvisorSlug n c p) ∧
    (generateAdvisorSlug name city primarySpecialty).length ≤ 100 ∧
    (∀ ch ∈ (generateAdvisorSlug name city primarySpecialty).toList, slugChar ch = true) ∧
    (generateAdvisorSlug name city primarySpecialty).toList.head? ≠ some '-' ∧
    ((slugCore name city primarySpecialty).length ≤ 100 →
      (generateAdvisorSlug name city primarySpecialty).toList.getLast? ≠ some '-') := by
  have hts : (generateAdvisorSlug name city primarySpecialty).toList =
      (slugCore name city primarySpecialty).take 100 := rfl
  refine ⟨?_, ?_, ?_, ?_, ?_⟩
  · intro n c p h1 h2 h3
    rw [h1, h2, h3]
  · show ((slugCore name city primarySpecialty).take 100).length ≤ 100
    simp [List.length_take]
  · intro ch hch
    rw [hts] at hch
    have h1 : ch ∈ slugCore name city primarySpecialty := List.take_subset _ _ hch
    have h2 := mem_trimTrail _ _ h1
    have h3 := mem_trimLead h2
    rcases mem_collapseGo _ _ _ h3 with h4 | h4
    · simp [slugChar, h4]
    · simp [slugChar, h4]
  · rw [hts]
    have hht : ∀ l : List Char, (l.take 100).head? = l.head? := by
      intro l
      cases l with
      | nil => rfl
      | cons c t => rfl
    rw [hht]
    show (trimTrail (trimLead (collapseGo false _))).head? ≠ some '-'
    rcases trimTrail_head (trimLead (collapseGo false _)) with h | h
    · rw [h]; simp
    · rw [h]; exact trimLead_collapse_head _
  · intro hlen
    rw [hts, List.take_of_length_le hlen]
    exact trimTrail_getLast (noDbl_trimLead (noDbl_collapseGo _ _))

/-- C2 witness: at a concrete short input every hypothesis of the amended
theorem holds and the slug indeed lacks a trailing hyphen. -/
theorem generateAdvisorSlug_shape_witness :
    (generateAdvisorSlug "Jane Doe" "Duluth" (some "Tax Planning")).toList.getLast? ≠
      some '-' :=
  (generateAdvisorSlug_shape "Jane Doe" "Duluth" (some "Tax Planning")).2.2.2.2 (by decide)

section NormalizeStateLemmas

theorem mem_of_lookup_eq_some {α β : Type} [BEq α] [LawfulBEq α] {a : α} {b : β} :
    ∀ {l : List (α × β)}, List.lookup a l = some b → (a, b) ∈ l := by
  intro l
  induction l with
  | nil => intro h; simp [List.lookup] at h
  | cons x rest ih =>
    intro h
    cases x with
    | mk k v =>
      rw [List.lookup] at h
      cases hak : (a == k) with
      | true =>
        rw [hak] at h
        have h' : some v = some b := h
        have hv : v = b := by injection h'
        have ha : a = k := eq_of_beq hak
        subst hv; subst ha
        exact List.mem_cons_self _ _
      | false =>
        rw [hak] at h
        exact List.mem_cons_of_mem _ (ih h)

theorem lookup_keys_isSome {k : String} :
    ∀ {l : List (String × String)},
      (List.lookup k l).isSome = true ↔ k ∈ l.map Prod.fst := by
  intro l
  induction l with
  | nil => simp [List.lookup]
  | cons x rest ih =>
    cases x with
    | mk a b =>
      rw [List.lookup]
      by_cases h : k = a
      · subst h; simp
      · have hb : (k == a) = false := beq_eq_false_iff_ne.mpr h
        simp [hb, h, ih]

theorem lookup_map_swap (f : String → String) :
    ∀ (l : List (String × String)) (u : String),
      List.lookup u (l.map (fun p => (f p.2, p.1))) =
        (l.find? (fun p => f p.2 == u)).map Prod.fst := by
  intro l
  induction l with
  | nil => intro u; rfl
  | cons x rest ih =>
    intro u
    cases x with
    | mk a b =>
      simp only [List.map_cons, List.lookup, List.find?]
      by_cases h : u = f b
      · have h1 : (u == f b) = true := beq_iff_eq.mpr h
        have h2 : (f b == u) = true := beq_iff_eq.mpr h.symm
        simp [h1, h2]
      · have h1 : (u == f b) = false := beq_eq_false_iff_ne.mpr h
        have h2 : (f b == u) = false := beq_eq_false_iff_ne.mpr (Ne.symm h)
        simp [h1, h2, ih]

theorem isWs_jsUpperChar (c : Char) : isWs (jsUpperChar c) = isWs c := by
  unfold jsUpperChar
  cases h : List.lookup c upperPairs with
  | none => rfl
  | some u =>
    have hm : (c, u) ∈ upperPairs := mem_of_lookup_eq_some h
    have hw : ∀ p ∈ upperPairs, isWs p.1 = false ∧ isWs p.2 = false := by decide
    show isWs u = isWs c
    rw [(hw _ hm).2, (hw _ hm).1]

theorem trimL_map_upper (l : List Char) :
    trimL (l.map jsUpperChar) = (trimL l).map jsUpperChar := by
  have hfun : (isWs ∘ jsUpperChar) = isWs := funext isWs_jsUpperChar
  unfold trimL
  rw [List.dropWhile_map, hfun, ← List.map_reverse, List.dropWhile_map, hfun,
    ← List.map_reverse]

theorem jsTrim_jsToUpper (s : String) : jsTrim (jsToUpper s) = jsToUpper (jsTrim s) := by
  show String.mk (trimL (s.toList.map jsUpperChar)) =
    String.mk ((trimL s.toList).map jsUpperChar)
  rw [trimL_map_upper]

end NormalizeStateLemmas

/-- C7: normalizeState agrees with the claim's description on every input
string — it returns the trimmed upper-cased input when that is a known
two-letter state code, otherwise the abbreviation obtained by reverse
lookup when the input matches a full state name case-insensitively,
otherwise the first two characters of the trimmed input upper-cased — it
never fails, and every one of the 51 valid codes is returned unchanged. -/
theorem normalizeState_matches_spec :
    (∀ s, normalizeState s = normalizeStateSpec s) ∧
    (∀ code ∈ STATE_NAMES.map Prod.fst, normalizeState code = code) := by
  constructor
  · intro s
    unfold normalizeState normalizeStateSpec
    rw [jsTrim_jsToUpper]
    cases h1 : List.lookup (jsToUpper (jsTrim s)) STATE_NAMES with
    | some v =>
      have hmem : jsToUpper (jsTrim s) ∈ STATE_NAMES.map Prod.fst :=
        lookup_keys_isSome.mp (by simp [h1])
      simp [h1, hmem]
    | none =>
      have hmem : jsToUpper (jsTrim s) ∉ STATE_NAMES.map Prod.fst := by
        intro hm
        have := lookup_keys_isSome.mpr hm
        simp [h1] at this
      simp only [h1]
      rw [show STATE_ABBREVS = STATE_NAMES.map (fun p => (jsToUpper p.2, p.1)) from rfl,
        lookup_map_swap]
      cases h2 : STATE_NAMES.find? (fun p => jsToUpper p.2 == jsToUpper (jsTrim s)) with
      | some p => simp [h2, hmem]
      | none =>
        simp only [h2, hmem, if_false, Option.map_none']
        show String.mk (((jsTrim s).toList.map jsUpperChar).take 2) =
          String.mk (((jsTrim s).toList.take 2).map jsUpperChar)
        rw [← List.map_take]
  · intro code hcode
    revert hcode
    revert code
    decide

/-- C7 witness: a concrete valid code is returned unchanged. -/
theorem normalizeState_matches_spec_witness : normalizeState "CA" = "CA" :=
  normalizeState_matches_spec.2 "CA" (by decide)

theorem rewriteGo_attempts_le (o : Nat → Except String RewrittenBio) :
    ∀ (fuel attempt : Nat) (le : Option String),
      ((rewriteGo o fuel attempt le).attemptsMade).length ≤ fuel := by
  intro fuel
  induction fuel with
  | zero => intro attempt le; simp [rewriteGo]
  | succ n ih =>
    intro attempt le
    cases ho : o attempt with
    | ok r => simp [rewriteGo, ho]
    | error e =>
      simp only [rewriteGo, ho, List.length_cons]
      exact Nat.succ_le_succ (ih _ _)

/-- Three consecutive failures exhaust the retry loop: attempts 1, 2, 3 are
made, delays 2000 and 4000 are slept, and the last error is propagated. -/
theorem rewriteGo_three_errors (o : Nat → Except String RewrittenBio) (e1 e2 e3 : String)
    (h1 : o 1 = Except.error e1) (h2 : o 2 = Except.error e2)
    (h3 : o 3 = Except.error e3) :
    rewriteGo o MAX_RETRIES 1 none = ⟨Except.error e3, [1, 2, 3], [2000, 4000]⟩ := by
  show rewriteGo o (0 + 1 + 1 + 1) 1 none = _
  simp [rewriteGo, MAX_RETRIES, RETRY_DELAY_MS, h1, h2, h3]

/-- C5: rewriteBioForSEO makes at most three attempts for every oracle;
and when the first three attempts fail with errors e1, e2, e3 it makes
exactly the attempts 1, 2, 3, sleeps 2000ms after the first failure and
4000ms after the second (none after the last), and propagates the last
error e3 instead of returning a value. -/
theorem rewriteBioForSEO_retry_policy (oracle : Nat → Except String RewrittenBio)
    (e1 e2 e3 : String)
    (h1 : oracle 1 = Except.error e1) (h2 : oracle 2 = Except.error e2)
    (h3 : oracle 3 = Except.error e3) :
    (∀ (hasKey : Bool) (o : Nat → Except String RewrittenBio),
      ((rewriteBioForSEO hasKey o).attemptsMade).length ≤ 3) ∧
    rewriteBioForSEO true oracle =
      ⟨Except.error e3, [1, 2, 3], [2000, 4000]⟩ := by
  constructor
  · intro hasKey o
    cases hasKey with
    | false => simp [rewriteBioForSEO]
    | true =>
      simp only [rewriteBioForSEO, if_true]
      exact rewriteGo_attempts_le o 3 1 none
  · exact rewriteGo_three_errors oracle e1 e2 e3 h1 h2 h3

/-- C5 witness: a concretely always-failing oracle exercises the theorem. -/
theorem rewriteBioForSEO_retry_policy_witness :
    rewriteBioForSEO true (fun _ => Except.error "model unavailable") =
      ⟨Except.error "model unavailable", [1, 2, 3], [2000, 4000]⟩ :=
  (rewriteBioForSEO_retry_policy (fun _ => Except.error "model unavailable")
    "model unavailable" "model unavailable" "model unavailable" rfl rfl rfl).2

/-- When the rewrite fails on every attempt and neither duplicate check nor
insert interferes, the whole step evaluates to a successful insert of the
fallback row with the full effect trace. -/
theorem processAndInsertAdvisor_fallback_eq (env : PipelineEnv) (st : Storage)
    (scraped : ScrapedAdvisor) (e1 e2 e3 : String)
    (hkey : env.hasApiKey = true)
    (h1 : env.oracle 1 = Except.error e1) (h2 : env.oracle 2 = Except.error e2)
    (h3 : env.oracle 3 = Except.error e3)
    (hnodup : checkDuplicate st scraped.websiteUrl (some (derivedSlug scraped)) = false)
    (hfree : st.slugExists (derivedSlug scraped) = false)
    (hins : env.insertFailure (fallbackRow scraped) = none) :
    processAndInsertAdvisor env st scraped =
      (⟨true, some (derivedSlug scraped), none⟩,
       { slugExists := fun s => s == derivedSlug scraped || st.slugExists s,
         urlExists := fun u => (match scraped.websiteUrl with
           | some w => u == w
           | none => false) || st.urlExists u },
       [Effect.checkDup, Effect.rewriteBio, Effect.fallbackBio,
        Effect.insertRow (fallbackRow scraped)]) := by
  have hres : (rewriteBioForSEO env.hasApiKey env.oracle).result = Except.error e3 := by
    rw [hkey]
    exact congrArg RewriteTrace.result (rewriteGo_three_errors env.oracle e1 e2 e3 h1 h2 h3)
  simp only [processAndInsertAdvisor]
  rw [show generateAdvisorSlug scraped.name (normalizeCity scraped.city)
      (some (specOrDesignation scraped)) = derivedSlug scraped from rfl]
  rw [hnodup]
  simp only [Bool.false_eq_true, if_false, hres]
  simp only [dbInsert, fallbackRow] at hins ⊢
  rw [show (generateFallbackBio scraped.name scraped.designation
      (normalizeCity scraped.city ++ (", " ++ normalizeState scraped.state))
      scraped.firmName).specialties = ["Tax Planning", "Wealth Management", "Risk Management"]
    from rfl] at hins ⊢
  simp only [hfree, Bool.false_eq_true, if_false, hins]
  rfl

/-- C4: when the bio rewrite fails on all three attempts, the orchestrator
still persists the advisor record: the step succeeds, the inserted row
carries the deterministic fallback bio — which contains the advisor's name
verbatim (as a prefix) and the designation verbatim (as a contiguous
substring) — the fallback supplies its fixed three-item specialty list
(merged with the scraped specialties in the persisted row), and the slug
exists in storage afterwards. -/
theorem rewrite_failure_still_persists (env : PipelineEnv) (st : Storage)
    (scraped : ScrapedAdvisor) (e1 e2 e3 : String)
    (hkey : env.hasApiKey = true)
    (h1 : env.oracle 1 = Except.error e1) (h2 : env.oracle 2 = Except.error e2)
    (h3 : env.oracle 3 = Except.error e3)
    (hnodup : checkDuplicate st scraped.websiteUrl (some (derivedSlug scraped)) = false)
    (hfree : st.slugExists (derivedSlug scraped) = false)
    (hins : env.insertFailure (fallbackRow scraped) = none) :
    (processAndInsertAdvisor env st scraped).1 =
      ⟨true, some (derivedSlug scraped), none⟩ ∧
    ∃ row : AdvisorRow,
      Effect.insertRow row ∈ (processAndInsertAdvisor env st scraped).2.2 ∧
      Effect.fallbackBio ∈ (processAndInsertAdvisor env st scraped).2.2 ∧
      row.bio = (generateFallbackBio scraped.name scraped.designation
        (normalizeCity scraped.city ++ (", " ++ normalizeState scraped.state))
        scraped.firmName).bio ∧
      (∃ t, row.bio.data = scraped.name.data ++ t) ∧
      (∃ p q, row.bio.data = p ++ (scraped.designation.data ++ q)) ∧
      (generateFallbackBio scraped.name scraped.designation
        (normalizeCity scraped.city ++ (", " ++ normalizeState scraped.state))
        scraped.firmName).specialties =
        ["Tax Planning", "Wealth Management", "Risk Management"] ∧
      row.specialties = (jsSetDedup ((scraped.specialties.getD []) ++
        ["Tax Planning", "Wealth Management", "Risk Management"])).take 6 ∧
      row.slug = derivedSlug scraped ∧
      (processAndInsertAdvisor env st scraped).2.1.slugExists (derivedSlug scraped) = true := by
  have hstep := processAndInsertAdvisor_fallback_eq env st scraped e1 e2 e3 hkey h1 h2 h3
    hnodup hfree hins
  rw [hstep]
  refine ⟨rfl, fallbackRow scraped, by simp, by simp, rfl, ?_, ?_, rfl, rfl, rfl, by simp⟩
  · refine ⟨(" is a distinguished " ++ (scraped.designation ++
      ((match scraped.firmName with
        | some f => if f = "" then "" else " at " ++ f
        | none => "") ++
      (" based in " ++ ((normalizeCity scraped.city ++ (", " ++ normalizeState scraped.state)) ++
      (". With a focus on strategic wealth and tax planning, " ++ (scraped.name ++
      (" helps clients navigate complex financial decisions and optimize their tax positions. Specializing in innovative risk management solutions including captive insurance and reinsurance strategies, " ++
      (scraped.name ++
      " delivers comprehensive financial guidance tailored to each client's unique situation."))))))))).data, ?_⟩
    show (generateFallbackBio scraped.name scraped.designation
      (normalizeCity scraped.city ++ (", " ++ normalizeState scraped.state))
      scraped.firmName).bio.data = _
    simp only [generateFallbackBio, String.data_append]
  · refine ⟨scraped.name.data ++ " is a distinguished ".data, ?_⟩
    refine ⟨((match scraped.firmName with
        | some f => if f = "" then "" else " at " ++ f
        | none => "") ++
      (" based in " ++ ((normalizeCity scraped.city ++ (", " ++ normalizeState scraped.state)) ++
      (". With a focus on strategic wealth and tax planning, " ++ (scraped.name ++
      (" helps clients navigate complex financial decisions and optimize their tax positions. Specializing in innovative risk management solutions including captive insurance and reinsurance strategies, " ++
      (scraped.name ++
      " delivers comprehensive financial guidance tailored to each client's unique situation."))))))).data, ?_⟩
    show (generateFallbackBio scraped.name scraped.designation
      (normalizeCity scraped.city ++ (", " ++ normalizeState scraped.state))
      scraped.firmName).bio.data = _
    simp only [generateFallbackBio, String.data_append, List.append_assoc]

/-- C4 witness: with the model down, a concrete candidate is still
persisted and its slug exists afterwards. -/
theorem rewrite_failure_still_persists_witness :
    (processAndInsertAdvisor envAIDown emptyStorage janeAdvisor).1 =
      ⟨true, some (derivedSlug janeAdvisor), none⟩ ∧
    (processAndInsertAdvisor envAIDown emptyStorage janeAdvisor).2.1.slugExists
      (derivedSlug janeAdvisor) = true := by
  obtain ⟨hsucc, row, _, _, _, _, _, _, _, _, hslugex⟩ :=
    rewrite_failure_still_persists envAIDown emptyStorage janeAdvisor
      "503 service unavailable" "503 service unavailable" "503 service unavailable"
      rfl rfl rfl rfl (by decide) (by decide) rfl
  exact ⟨hsucc, hslugex⟩

theorem processLoop_advisors (env : PipelineEnv) :
    ∀ (l : List ScrapedAdvisor) (st : Storage),
      ((processLoop env st l).2.1).map TraceEntry.adv = l := by
  intro l
  induction l with
  | nil => intro st; rfl
  | cons a rest ih =>
    intro st
    simp only [processLoop, List.map_cons]
    rw [ih]

theorem derivedSlug_attachScore (a : ScrapedAdvisor) :
    derivedSlug (attachScore a) = derivedSlug a := rfl

theorem earlyDup_eq (st : Storage) (a : ScrapedAdvisor) :
    earlyDup st a = st.slugExists (derivedSlug a) := rfl

/-- C3: every candidate of a source run whose derived slug already exists
in the storage the run started from is handled without ever invoking the
bio rewriter (so also without the fallback), and its recorded outcome is
the duplicate skip, not an error: the early duplicate check removes it
before the rewrite step. -/
theorem duplicate_slug_skips_rewriter (env : PipelineEnv) (st0 : Storage)
    (advisors : List ScrapedAdvisor) :
    ∀ entry ∈ (runSourcePipeline env st0 advisors).trace,
      st0.slugExists (derivedSlug entry.adv) = true →
      Effect.rewriteBio ∉ entry.events ∧ Effect.fallbackBio ∉ entry.events ∧
        entry.outcome = Outcome.skipped := by
  intro entry hmem hslug
  unfold runSourcePipeline at hmem
  simp only [List.mem_append] at hmem
  rcases hmem with hmem | hmem
  · simp only [List.mem_map] at hmem
    obtain ⟨a, _, rfl⟩ := hmem
    exact ⟨by simp, by simp, rfl⟩
  · exfalso
    have hadv : entry.adv ∈ sortByPriority (advisors.filter (fun a => !(earlyDup st0 a))) := by
      have hmap := processLoop_advisors env
        (sortByPriority (advisors.filter (fun a => !(earlyDup st0 a)))) st0
      rw [← hmap]
      exact List.mem_map_of_mem TraceEntry.adv hmem
    have hperm : List.Perm (sortByPriority (advisors.filter (fun a => !(earlyDup st0 a))))
        ((advisors.filter (fun a => !(earlyDup st0 a))).map attachScore) :=
      List.perm_insertionSort byScoreDesc _
    have hadv2 : entry.adv ∈ (advisors.filter (fun a => !(earlyDup st0 a))).map attachScore :=
      hperm.mem_iff.mp hadv
    simp only [List.mem_map] at hadv2
    obtain ⟨a0, ha0, hEqa⟩ := hadv2
    have hfil : earlyDup st0 a0 = false := by
      have := (List.mem_filter.mp ha0).2
      simpa using this
    rw [← hEqa, derivedSlug_attachScore] at hslug
    rw [earlyDup_eq, hslug] at hfil
    exact Bool.true_eq_false.mp hfil

/-- C3 witness: a concrete run containing a candidate whose slug already
exists records exactly an early duplicate skip for it. -/
theorem duplicate_slug_skips_rewriter_witness :
    ∃ entry ∈ (runSourcePipeline envAllOk janeStorage [janeAdvisor]).trace,
      Effect.rewriteBio ∉ entry.events ∧ entry.outcome = Outcome.skipped := by
  refine ⟨⟨janeAdvisor, [Effect.checkDupBySlug], Outcome.skipped⟩, by decide, ?_, ?_⟩
  · exact (duplicate_slug_skips_rewriter envAllOk janeStorage [janeAdvisor] _
      (by decide) (by decide)).1
  · exact (duplicate_slug_skips_rewriter envAllOk janeStorage [janeAdvisor] _
      (by decide) (by decide)).2.2

/-- C6 counterexample: two degenerate candidates derive the same empty
slug, which the insert-time pre-check cannot see (an empty slug is falsy),
so the second insert raises the store's unique-slug violation; that
conflict surfaces as a generic insert error and the run summary counts it
in the error tally (1) and not in the skipped tally (0). -/
theorem insert_conflict_error_tally_counterexample :
    (processAndInsertAdvisor envAllOk
        ((processAndInsertAdvisor envAllOk emptyStorage blankAdvisor).2.1)
        blankAdvisor).1.error = some ("Insert error: " ++ pgDuplicateSlugError) ∧
    classifyOutcome (processAndInsertAdvisor envAllOk
        ((processAndInsertAdvisor envAllOk emptyStorage blankAdvisor).2.1)
        blankAdvisor).1 = Outcome.errored ∧
    (runSourcePipeline envAllOk emptyStorage [blankAdvisor, blankAdvisor]).skippedCount = 0 ∧
    (runSourcePipeline envAllOk emptyStorage [blankAdvisor, blankAdvisor]).errorCount = 1 := by
  exact ⟨by decide, by decide, by decide, by decide⟩

/-- C6 amended: a conflict caught by the pre-insert duplicate check is
surfaced as the Duplicate outcome and classified as a skip; a unique-slug
collision raised by the data store during the insert itself is caught as a
generic insert error and classified as an error (it reaches the error
tally, not the skipped tally); the HTTP advisor-creation route, by
contrast, maps the store's unique-violation code on a slug constraint to
the distinct conflict status 409 rather than the generic 500. -/
theorem persistence_conflict_outcomes :
    (∀ (env : PipelineEnv) (st : Storage) (scraped : ScrapedAdvisor),
      checkDuplicate st scraped.websiteUrl (some (derivedSlug scraped)) = true →
      (processAndInsertAdvisor env st scraped).1.error =
        some "Duplicate advisor (website or slug already exists)" ∧
      classifyOutcome (processAndInsertAdvisor env st scraped).1 = Outcome.skipped) ∧
    (∀ (env : PipelineEnv) (st : Storage) (scraped : ScrapedAdvisor),
      checkDuplicate st scraped.websiteUrl (some (derivedSlug scraped)) = false →
      st.slugExists (derivedSlug scraped) = true →
      (processAndInsertAdvisor env st scraped).1.error =
        some ("Insert error: " ++ pgDuplicateSlugError) ∧
      classifyOutcome (processAndInsertAdvisor env st scraped).1 = Outcome.errored) ∧
    advisorsPostErrorStatus "23505" (some "advisors_slug_idx") = 409 ∧
    advisorsPostErrorStatus "40001" (some "advisors_slug_idx") = 500 := by
  refine ⟨?_, ?_, by decide, by decide⟩
  · intro env st scraped hdup
    simp only [processAndInsertAdvisor]
    rw [show generateAdvisorSlug scraped.name (normalizeCity scraped.city)
        (some (specOrDesignation scraped)) = derivedSlug scraped from rfl, hdup,
      if_pos rfl]
    refine ⟨rfl, ?_⟩
    show classifyOutcome
      (⟨false, none, some "Duplicate advisor (website or slug already exists)"⟩ : InsertResult) =
        Outcome.skipped
    decide
  · intro env st scraped hnodup hexists
    simp only [processAndInsertAdvisor]
    rw [show generateAdvisorSlug scraped.name (normalizeCity scraped.city)
        (some (specOrDesignation scraped)) = derivedSlug scraped from rfl, hnodup]
    simp only [Bool.false_eq_true, if_false]
    cases hres : (rewriteBioForSEO env.hasApiKey env.oracle).result with
    | ok r =>
      simp only [hres, dbInsert, hexists, if_true]
      refine ⟨by trivial, ?_⟩
      show classifyOutcome
        (⟨false, none, some ("Insert error: " ++ pgDuplicateSlugError)⟩ : InsertResult) =
          Outcome.errored
      decide
    | error e =>
      simp only [hres, dbInsert, hexists, if_true]
      refine ⟨by trivial, ?_⟩
      show classifyOutcome
        (⟨false, none, some ("Insert error: " ++ pgDuplicateSlugError)⟩ : InsertResult) =
          Outcome.errored
      decide

/-- C6 witness: a degenerate candidate whose empty slug already exists is
classified as an error by the pipeline. -/
theorem persistence_conflict_outcomes_witness :
    classifyOutcome (processAndInsertAdvisor envAllOk
      ⟨fun s => s == "", fun _ => false⟩ blankAdvisor).1 = Outcome.errored :=
  (persistence_conflict_outcomes.2.1 envAllOk ⟨fun s => s == "", fun _ => false⟩
    blankAdvisor (by decide) (by decide)).2

/-- C8 counterexample: on an unmatched page the Samslist parser returns the
empty list after applying only its single pattern, so the claim that every
source falls back to an alternative pattern before returning empty fails
for the Samslist source. -/
theorem samslist_no_fallback_counterexample :
    parseSamslistAdvisors emptyDoc 5 = [] ∧
    samslistStrategiesUsed emptyDoc 5 = [ParseStrategy.samslistPrimary] ∧
    ¬ fellBackBeforeEmpty (parseSamslistAdvisors emptyDoc 5)
      (samslistStrategiesUsed emptyDoc 5) := by
  refine ⟨rfl, rfl, ?_⟩
  intro h
  exact absurd (h rfl) (by decide)

/-- C8 amended: the Wealthtender parser falls back to its alternative
pattern exactly when the primary pattern yields zero records, and only the
alternative's result can then still be empty; the Samslist parser applies
its single pattern and returns the empty list directly when it yields
nothing; every parser is a total function of its match streams, so none
throws. -/
theorem parser_fallback_behaviour :
    (∀ (doc : MarkdownDoc) (limit : Nat), parseWealthtenderPrimary doc limit = [] →
      parseWealthtenderAdvisors doc limit = parseWealthtenderAlternative doc limit ∧
      wtStrategiesUsed doc limit = [ParseStrategy.wtPrimary, ParseStrategy.wtAlternative]) ∧
    (∀ (doc : MarkdownDoc) (limit : Nat), parseWealthtenderPrimary doc limit ≠ [] →
      parseWealthtenderAdvisors doc limit = parseWealthtenderPrimary doc limit ∧
      wtStrategiesUsed doc limit = [ParseStrategy.wtPrimary]) ∧
    (∀ (doc : MarkdownDoc) (limit : Nat),
      samslistStrategiesUsed doc limit = [ParseStrategy.samslistPrimary]) := by
  refine ⟨?_, ?_, fun _ _ => rfl⟩
  · intro doc limit h
    constructor
    · simp [parseWealthtenderAdvisors, h]
    · simp [wtStrategiesUsed, h]
  · intro doc limit h
    constructor
    · simp [parseWealthtenderAdvisors, h]
    · simp [wtStrategiesUsed, h]

/-- C8 witness: on the empty page the Wealthtender parser indeed returns
what its alternative pass returns. -/
theorem parser_fallback_behaviour_witness :
    parseWealthtenderAdvisors emptyDoc 5 = parseWealthtenderAlternative emptyDoc 5 :=
  (parser_fallback_behaviour.1 emptyDoc 5 rfl).1

theorem filter_orderedInsert (k : Nat) (x : ScrapedAdvisor) :
    ∀ l : List ScrapedAdvisor,
      (List.orderedInsert byScoreDesc x l).filter (fun a => scoreKey a == k) =
        (if scoreKey x == k then [x] else []) ++
          l.filter (fun a => scoreKey a == k) := by
  intro l
  induction l with
  | nil => simp [List.orderedInsert, List.filter_cons]
  | cons y ys ih =>
    simp only [List.orderedInsert]
    by_cases h : byScoreDesc x y
    · rw [if_pos h]
      by_cases hx : (scoreKey x == k) = true <;> simp [List.filter_cons, hx]
    · rw [if_neg h]
      have hlt : scoreKey x < scoreKey y := by
        simp only [byScoreDesc, not_le] at h
        exact h
      by_cases hx : scoreKey x = k
      · have hy : (scoreKey y == k) = false := by
          apply beq_eq_false_iff_ne.mpr
          omega
        have hx' : (scoreKey x == k) = true := beq_iff_eq.mpr hx
        simp [List.filter_cons, hy, ih, hx']
      · have hx' : (scoreKey x == k) = false := beq_eq_false_iff_ne.mpr hx
        by_cases hy : (scoreKey y == k) = true <;>
          simp [List.filter_cons, hy, ih, hx']

theorem filter_insertionSort (k : Nat) :
    ∀ l : List ScrapedAdvisor,
      (List.insertionSort byScoreDesc l).filter (fun a => scoreKey a == k) =
        l.filter (fun a => scoreKey a == k) := by
  intro l
  induction l with
  | nil => rfl
  | cons a l ih =>
    simp only [List.insertionSort]
    rw [filter_orderedInsert, ih, List.filter_cons]
    by_cases hx : (scoreKey a == k) = true <;> simp [hx]

/-- C9: sortByPriority returns a permutation of the score-attached input,
sorted descending by score (each element's score is at least the next
one's); ties retain relative input order, expressed by the stable-sort
law that for every score value the elements carrying it appear exactly as
in the input; and the processing segment of a source run handles the
candidates in exactly the sorted order. -/
theorem sortByPriority_stable_desc (l : List ScrapedAdvisor) :
    List.Perm (sortByPriority l) (l.map attachScore) ∧
    List.Sorted byScoreDesc (sortByPriority l) ∧
    (∀ k : Nat, (sortByPriority l).filter (fun a => scoreKey a == k) =
      (l.map attachScore).filter (fun a => scoreKey a == k)) ∧
    (∀ (env : PipelineEnv) (st0 : Storage) (advisors : List ScrapedAdvisor),
      (((runSourcePipeline env st0 advisors).trace.drop
        ((advisors.filter (fun a => earlyDup st0 a)).length)).map TraceEntry.adv) =
        sortByPriority (advisors.filter (fun a => !(earlyDup st0 a)))) := by
  refine ⟨List.perm_insertionSort byScoreDesc _, List.sorted_insertionSort byScoreDesc _,
    fun k => filter_insertionSort k _, ?_⟩
  intro env st0 advisors
  simp only [runSourcePipeline]
  have hlen : ((advisors.filter (fun a => earlyDup st0 a)).map (fun a =>
      (⟨a, [Effect.checkDupBySlug], Outcome.skipped⟩ : TraceEntry))).length =
      (advisors.filter (fun a => earlyDup st0 a)).length := List.length_map _ _
  rw [← hlen, List.drop_left]
  exact processLoop_advisors env _ st0

theorem samslistLoop_le (limit : Nat) :
    ∀ (ms : List SamslistMatch) (acc : List ScrapedAdvisor),
      acc.length ≤ limit → (samslistLoop limit acc ms).length ≤ limit := by
  intro ms
  induction ms with
  | nil => intro acc h; simpa [samslistLoop] using h
  | cons m rest ih =>
    intro acc h
    simp only [samslistLoop]
    split
    · exact h
    · next hge =>
      split
      · exact ih acc h
      · split
        · exact ih acc h
        · apply ih
          simp only [List.length_append, List.length_cons, List.length_nil]
          omega

theorem wtPrimaryLoop_le (strip : String → String) (limit : Nat) :
    ∀ (ms : List WtCardMatch) (seen : List String) (acc : List ScrapedAdvisor),
      acc.length ≤ limit → (wtPrimaryLoop strip limit seen acc ms).length ≤ limit := by
  intro ms
  induction ms with
  | nil => intro seen acc h; simpa [wtPrimaryLoop] using h
  | cons m rest ih =>
    intro seen acc h
    simp only [wtPrimaryLoop]
    split
    · exact h
    · next hge =>
      split
      · exact ih _ acc h
      · apply ih
        simp only [List.length_append, List.length_cons, List.length_nil]
        omega

theorem wtAlt_le (doc : MarkdownDoc) (limit : Nat) :
    (parseWealthtenderAlternative doc limit).length ≤ limit := by
  unfold parseWealthtenderAlternative
  simp only [List.length_map, List.length_range]
  exact Nat.min_le_right _ _

/-- C10: for every markdown document (every stream of matches the patterns
can yield) and every record limit, each parsing function returns at most
limit records; in particular a limit of zero always yields the empty
list. -/
theorem parsers_respect_limit (doc : MarkdownDoc) (limit : Nat) :
    (parseWealthtenderAdvisors doc limit).length ≤ limit ∧
    (parseWealthtenderAlternative doc limit).length ≤ limit ∧
    (parseSamslistAdvisors doc limit).length ≤ limit ∧
    (limit = 0 → parseWealthtenderAdvisors doc limit = [] ∧
      parseWealthtenderAlternative doc limit = [] ∧
      parseSamslistAdvisors doc limit = []) := by
  have hwp : (parseWealthtenderPrimary doc limit).length ≤ limit :=
    wtPrimaryLoop_le _ _ _ _ _ (Nat.zero_le _)
  have halt : (parseWealthtenderAlternative doc limit).length ≤ limit := wtAlt_le doc limit
  have hsl : (parseSamslistAdvisors doc limit).length ≤ limit :=
    samslistLoop_le _ _ _ (Nat.zero_le _)
  have hw : (parseWealthtenderAdvisors doc limit).length ≤ limit := by
    unfold parseWealthtenderAdvisors
    by_cases hE : (parseWealthtenderPrimary doc limit).isEmpty = true
    · simp only [hE, if_true]
      exact halt
    · simp only [Bool.not_eq_true] at hE
      simp only [hE, Bool.false_eq_true, if_false]
      exact hwp
  refine ⟨hw, halt, hsl, ?_⟩
  intro h0
  subst h0
  exact ⟨List.eq_nil_of_length_eq_zero (Nat.le_zero.mp hw),
    List.eq_nil_of_length_eq_zero (Nat.le_zero.mp halt),
    List.eq_nil_of_length_eq_zero (Nat.le_zero.mp hsl)⟩

/-- C10 witness: even a page with matches yields nothing at limit zero. -/
theorem parsers_respect_limit_witness :
    parseSamslistAdvisors sampleDoc 0 = [] ∧
    parseWealthtenderAdvisors sampleDoc 0 = [] := by
  have h := (parsers_respect_limit sampleDoc 0).2.2.2 rfl
  exact ⟨h.2.2, h.1⟩

end AdvisorHub
